import Mathlib

/-!
Verification of the mergekit sweep scripts (`merge_scan_linear.py`,
`merge_scan_ties.py`, `model_soup.py`).

The scripts are embedded shallowly: Python floats are modelled as exact
rationals (`ℚ`), Python's `round(x, k)` (round-half-to-even on the decimal
grid) as `roundTo k`, the mutable YAML object graph as an explicit heap of
objects addressed by naturals, the sweep driver's control flow as an
event-trace function, and f-string path construction as `List Char`
concatenation.
-/

set_option maxRecDepth 40000

namespace MergeScan

/-- Executable floor of a rational (equal to `⌊q⌋`, see `qfloor_eq`). -/
def qfloor (q : ℚ) : ℤ := q.num / q.den

theorem qfloor_eq (q : ℚ) : qfloor q = ⌊q⌋ := Rat.floor_def.symm

/-- Round-half-to-even of a rational to an integer, the tie-breaking rule of
Python's builtin `round`. -/
def rhe (q : ℚ) : ℤ :=
  let f := qfloor q
  let r := q - f
  if r < 1/2 then f
  else if 1/2 < r then f + 1
  else if f % 2 = 0 then f else f + 1

/-- Python's `round(q, k)`: round to the nearest multiple of `10 ^ (-k)`,
ties to even. -/
def roundTo (k : ℕ) (q : ℚ) : ℚ :=
  (rhe (q * 10 ^ k) : ℚ) / 10 ^ k

/-- Boolean equality test on rationals (numerator and denominator of the
canonical form agree), the equality Python's `==` computes on these exact
values. Used instead of propositional `Decidable` equality so that closed
sweeps evaluate by kernel reduction. -/
def ratEq (a b : ℚ) : Bool := a.num == b.num && a.den == b.den

theorem ratEq_iff {a b : ℚ} : ratEq a b = true ↔ a = b := by
  unfold ratEq
  rw [Bool.and_eq_true, beq_iff_eq, beq_iff_eq]
  constructor
  · intro h
    exact Rat.ext h.1 h.2
  · rintro rfl
    exact ⟨rfl, rfl⟩

/-- A rational lies on the 3-decimal grid (is an integer multiple of
`1/1000`). All weights produced by the linear sweep, and all lambdas and
densities produced by the TIES sweep (2-decimal grid ⊆ 3-decimal grid),
lie on this grid. -/
def isGrid3 (q : ℚ) : Prop := (q * 1000).den = 1

instance (q : ℚ) : Decidable (isGrid3 q) := by unfold isGrid3; infer_instance

theorem isGrid3_iff (q : ℚ) : isGrid3 q ↔ ∃ z : ℤ, q = (z : ℚ) / 1000 := by
  constructor
  · intro h
    refine ⟨(q * 1000).num, ?_⟩
    have h2 : ((q * 1000).num : ℚ) = q * 1000 := (Rat.den_eq_one_iff _).mp h
    rw [h2]
    ring
  · rintro ⟨z, rfl⟩
    have : (z : ℚ) / 1000 * 1000 = (z : ℚ) := by ring
    unfold isGrid3
    rw [this, Rat.den_intCast]

theorem rhe_intCast (z : ℤ) : rhe (z : ℚ) = z := by
  unfold rhe
  have hf : qfloor (z : ℚ) = z := by rw [qfloor_eq, Int.floor_intCast]
  simp only [hf]
  have : (z : ℚ) - z = 0 := by ring
  rw [this]
  norm_num

theorem roundTo_eq_self_of_grid3 {q : ℚ} (h : isGrid3 q) : roundTo 3 q = q := by
  rcases (isGrid3_iff q).mp h with ⟨z, rfl⟩
  unfold roundTo
  have h10 : ((10 : ℚ) ^ 3) = 1000 := by norm_num
  rw [h10]
  have harg : (z : ℚ) / 1000 * 1000 = (z : ℚ) := by ring
  rw [harg, rhe_intCast]

theorem isGrid3_roundTo3 (q : ℚ) : isGrid3 (roundTo 3 q) := by
  rw [isGrid3_iff]
  exact ⟨rhe (q * 10 ^ 3), by unfold roundTo; norm_num⟩

theorem isGrid3_add {a b : ℚ} (ha : isGrid3 a) (hb : isGrid3 b) :
    isGrid3 (a + b) := by
  rcases (isGrid3_iff a).mp ha with ⟨x, rfl⟩
  rcases (isGrid3_iff b).mp hb with ⟨y, rfl⟩
  rw [isGrid3_iff]
  exact ⟨x + y, by push_cast; ring⟩

theorem isGrid3_sub {a b : ℚ} (ha : isGrid3 a) (hb : isGrid3 b) :
    isGrid3 (a - b) := by
  rcases (isGrid3_iff a).mp ha with ⟨x, rfl⟩
  rcases (isGrid3_iff b).mp hb with ⟨y, rfl⟩
  rw [isGrid3_iff]
  exact ⟨x - y, by push_cast; ring⟩

theorem isGrid3_natMul {a : ℚ} (ha : isGrid3 a) (k : ℕ) :
    isGrid3 ((k : ℚ) * a) := by
  rcases (isGrid3_iff a).mp ha with ⟨x, rfl⟩
  rw [isGrid3_iff]
  exact ⟨(k : ℤ) * x, by push_cast; ring⟩

theorem isGrid3_one : isGrid3 1 := by
  rw [isGrid3_iff]; exact ⟨1000, by norm_num⟩

/-- A positive rational on the 3-decimal grid is at least `1/1000`. -/
theorem grid3_pos_ge {q : ℚ} (h : isGrid3 q) (hpos : 0 < q) : 1/1000 ≤ q := by
  rcases (isGrid3_iff q).mp h with ⟨z, rfl⟩
  have hz : 0 < z := by
    by_contra hle
    push_neg at hle
    have : (z : ℚ) ≤ 0 := by exact_mod_cast hle
    nlinarith
  have hz1 : (1 : ℤ) ≤ z := hz
  have : (1 : ℚ) ≤ (z : ℚ) := by exact_mod_cast hz1
  linarith

end MergeScan

namespace MergeScanLinear

open MergeScan

/-- The second weight of a combination, `merge_scan_linear.py` line 74:
`weight_2 = round(1.0 - weight_1, 3)`. -/
def weight_2 (w1 : ℚ) : ℚ := roundTo 3 (1 - w1)

/-- One update of the loop variable, `merge_scan_linear.py` line 70:
`current = round(current + step if start < end else current - step, 3)`. -/
def weightStep (start wend step current : ℚ) : ℚ :=
  roundTo 3 (if start < wend then current + step else current - step)

/-- The weight-generation loop of `merge_scan_linear.py` lines 64-70,
with explicit fuel (the Python `while` loop does not terminate for every
input, e.g. a tiny positive step that rounds away):

    weights = []
    current = start
    while current <= end + 1e-6 if start <= end else current >= end - 1e-6:
        weights.append(round(current, 3))
        if start == end: break
        current = round(current + step if start < end else current - step, 3)
-/
def weightsAux (start wend step : ℚ) : ℕ → ℚ → List ℚ
  | 0, _ => []
  | fuel + 1, current =>
    if (if start ≤ wend then current ≤ wend + 1/1000000
        else wend - 1/1000000 ≤ current) then
      roundTo 3 current ::
        (if ratEq start wend then []
         else weightsAux start wend step fuel (weightStep start wend step current))
    else []

/-- The weight list computed by `main` of `merge_scan_linear.py` from the
`--weight-start`, `--weight-end` and `--step-size` arguments, given enough
fuel for the loop. -/
def pyWeights (fuel : ℕ) (start wend step : ℚ) : List ℚ :=
  weightsAux start wend step fuel start

example : pyWeights 5 (3/10) (7/10) (2/10) = [3/10, 1/2, 7/10] := by
  with_unfolding_all decide

example : pyWeights 5 (1/2) (1/2) 0 = [1/2] := by with_unfolding_all decide

end MergeScanLinear

namespace MergeScanTies

open MergeScan

/-- The value sequence of `numpy.arange(start, stop, step)`: the length is
`ceil((stop - start) / step)` clamped to zero and element `i` is
`start + i * step` (per the numpy documentation); `step = 0` raises
`ZeroDivisionError`, modelled as `none`. -/
def npArange (start stop step : ℚ) : Option (List ℚ) :=
  if ratEq step 0 then none
  else
    let n : ℤ := -qfloor (-((stop - start) / step))
    some ((List.range n.toNat).map (fun i => start + (i : ℚ) * step))

example : npArange (2/10) (35/100) (1/10) = some [2/10, 3/10] := by
  with_unfolding_all decide

/-- The lambda value list of `merge_scan_ties.py` lines 84-93:

    if args.lambda_end is None:
        lambda_values = [args.lambda_start]
    else:
        lambda_values = [round(x, 2) for x in np.arange(
            args.lambda_start, args.lambda_end + args.lambda_step/2,
            args.lambda_step)]
-/
def lambdaValues (lstart : ℚ) (lend : Option ℚ) (lstep : ℚ) :
    Option (List ℚ) :=
  match lend with
  | none => some [lstart]
  | some e => (npArange lstart (e + lstep / 2) lstep).map
      (fun xs => xs.map (roundTo 2))

/-- The density pair list of `merge_scan_ties.py` lines 96-110. A pair is
`none` for the Python tuple `(None, None)` (no density update) and
`some (d1, d2)` for a pair of floats:

    if args.density_start is None or args.density_end is None:
        density_pairs = [(None, None)]
    else:
        density_pairs = []
        step = float(args.density_step)
        start = float(args.density_start)
        end = float(args.density_end) + step/2
        for d1 in np.arange(start, end, step):
            for d2 in np.arange(start, end, step):
                density_pairs.append((round(float(d1), 2), round(float(d2), 2)))
-/
def densityPairs (dstart dend : Option ℚ) (dstep : ℚ) :
    Option (List (Option (ℚ × ℚ))) :=
  match dstart, dend with
  | some s, some e =>
    (npArange s (e + dstep / 2) dstep).map
      (fun axis => axis.flatMap
        (fun d1 => axis.map (fun d2 => some (roundTo 2 d1, roundTo 2 d2))))
  | _, _ => some [none]

example : densityPairs (some (2/10)) (some (3/10)) (1/10) =
    some [some (2/10, 2/10), some (2/10, 3/10),
          some (3/10, 2/10), some (3/10, 3/10)] := by
  with_unfolding_all decide

end MergeScanTies

namespace PyHeap

/-- A Python value as it occurs in the loaded YAML mappings: a reference to
a heap object (for nested dicts and lists), a float, or a string. -/
inductive PyVal where
  | ref (a : ℕ) : PyVal
  | num (q : ℚ) : PyVal
  | str (s : String) : PyVal
  deriving DecidableEq

/-- A heap object: a dict (association list preserving insertion order, as
Python dicts do) or a list. -/
inductive PyObj where
  | dict (entries : List (String × PyVal)) : PyObj
  | arr (items : List PyVal) : PyObj
  deriving DecidableEq

/-- The Python object heap: the object at address `a` is the `a`-th entry. -/
abbrev Heap := List PyObj

def heapGet (h : Heap) (a : ℕ) : Option PyObj := List.get? h a

def heapSet (h : Heap) (a : ℕ) (o : PyObj) : Heap := List.set h a o

def lookupKey (es : List (String × PyVal)) (k : String) : Option PyVal :=
  match es with
  | [] => none
  | (k', v) :: rest => if k' = k then some v else lookupKey rest k

/-- Python dict assignment `d[k] = v`: replace the value of an existing key
in place, else append the new key at the end. -/
def setKey (es : List (String × PyVal)) (k : String) (v : PyVal) :
    List (String × PyVal) :=
  match es with
  | [] => [(k, v)]
  | (k', v') :: rest =>
    if k' = k then (k', v) :: rest else (k', v') :: setKey rest k v

def getDict (h : Heap) (a : ℕ) : Option (List (String × PyVal)) :=
  match heapGet h a with
  | some (PyObj.dict es) => some es
  | _ => none

def derefDict (v : PyVal) : Option ℕ :=
  match v with
  | PyVal.ref a => some a
  | _ => none

/-- The address of `yaml["models"][i]["parameters"]` for the dict at `ya`. -/
def paramsAddr (h : Heap) (ya : ℕ) (i : ℕ) : Option ℕ := do
  let top ← getDict h ya
  let la ← derefDict (← lookupKey top "models")
  let items ← match heapGet h la with
              | some (PyObj.arr items) => some items
              | _ => none
  let ma ← derefDict (← items.get? i)
  let pa ← derefDict (← lookupKey (← getDict h ma) "parameters")
  pure pa

/-- Python statement `yaml["models"][i]["parameters"][key] = num`, the heap
effect of one line of `update_weights` / `update_densities`. -/
def setModelField (h : Heap) (ya i : ℕ) (key : String) (w : ℚ) :
    Option Heap := do
  let pa ← paramsAddr h ya i
  let pes ← getDict h pa
  pure (heapSet h pa (PyObj.dict (setKey pes key (PyVal.num w))))

/-- Function `update_weights` of `merge_scan_linear.py` lines 20-24 (also
lines 23-27 of `merge_scan_ties.py`): mutates the weight fields of the two
model entries reachable from the dict at `ya` and returns the same dict. -/
def update_weights (h : Heap) (ya : ℕ) (w1 w2 : ℚ) : Option Heap := do
  let h1 ← setModelField h ya 0 "weight" w1
  setModelField h1 ya 1 "weight" w2

/-- Function `update_densities` of `merge_scan_ties.py` lines 34-38. -/
def update_densities (h : Heap) (ya : ℕ) (d1 d2 : ℚ) : Option Heap := do
  let h1 ← setModelField h ya 0 "density" d1
  setModelField h1 ya 1 "density" d2

/-- Function `update_lambda` of `merge_scan_ties.py` lines 29-32:
`yaml_content["parameters"]["lambda"] = new_lambda`. -/
def update_lambda (h : Heap) (ya : ℕ) (l : ℚ) : Option Heap := do
  let top ← getDict h ya
  let pa ← derefDict (← lookupKey top "parameters")
  let pes ← getDict h pa
  pure (heapSet h pa (PyObj.dict (setKey pes "lambda" (PyVal.num l))))

/-- Python `dict.copy()`: a new top-level dict with the same entries; the
values (including references to nested objects) are shared, so the copy is
shallow. Returns the extended heap and the address of the copy. -/
def pyCopy (h : Heap) (a : ℕ) : Option (Heap × ℕ) := do
  let o ← heapGet h a
  pure (h ++ [o], h.length)

/-- Read `yaml["models"][i]["parameters"][key]` as a float. -/
def readModelField (h : Heap) (ya i : ℕ) (key : String) : Option ℚ := do
  let pa ← paramsAddr h ya i
  match ← lookupKey (← getDict h pa) key with
  | PyVal.num q => pure q
  | _ => none

/-- Read `yaml["parameters"][key]` as a float. -/
def readTopParam (h : Heap) (ya : ℕ) (key : String) : Option ℚ := do
  let top ← getDict h ya
  let pa ← derefDict (← lookupKey top "parameters")
  match ← lookupKey (← getDict h pa) key with
  | PyVal.num q => pure q
  | _ => none

/-- Line 84 of `merge_scan_linear.py`:
`modified_yaml = update_weights(original_yaml.copy(), weight_1, weight_2)`.
Returns the heap after the call together with the address of the modified
copy. -/
def mutateLinear (h : Heap) (ya : ℕ) (w1 w2 : ℚ) : Option (Heap × ℕ) := do
  let (h1, b) ← pyCopy h ya
  let h2 ← update_weights h1 b w1 w2
  pure (h2, b)

/-- Lines 126-130 of `merge_scan_ties.py`:
`modified_yaml = update_lambda(original_yaml.copy(), lmda)` followed by
`update_densities` only when the density pair is present. -/
def mutateTies (h : Heap) (ya : ℕ) (l : ℚ) (dp : Option (ℚ × ℚ)) :
    Option (Heap × ℕ) := do
  let (h1, b) ← pyCopy h ya
  let h2 ← update_lambda h1 b l
  match dp with
  | none => pure (h2, b)
  | some (d1, d2) => do
    let h3 ← update_densities h2 b d1 d2
    pure (h3, b)

/-- A representative base recipe for the linear sweep, the shape
`merge_scan_linear.py` expects: address 0 holds the top-level mapping, whose
`models` entry references a two-element list of model entries, each with a
`parameters` mapping holding `weight: 0.5`. -/
def linearBase : Heap :=
  [PyObj.dict [("models", PyVal.ref 1), ("merge_method", PyVal.str "linear"),
               ("dtype", PyVal.str "bfloat16")],
   PyObj.arr [PyVal.ref 2, PyVal.ref 3],
   PyObj.dict [("model", PyVal.str "model-a"), ("parameters", PyVal.ref 4)],
   PyObj.dict [("model", PyVal.str "model-b"), ("parameters", PyVal.ref 5)],
   PyObj.dict [("weight", PyVal.num (1/2))],
   PyObj.dict [("weight", PyVal.num (1/2))]]

/-- A representative base recipe for the TIES sweep: like `linearBase` but
with `density` fields on both model entries and a top-level `parameters`
mapping holding `lambda`. -/
def tiesBase : Heap :=
  [PyObj.dict [("models", PyVal.ref 1), ("merge_method", PyVal.str "ties"),
               ("parameters", PyVal.ref 6)],
   PyObj.arr [PyVal.ref 2, PyVal.ref 3],
   PyObj.dict [("model", PyVal.str "model-a"), ("parameters", PyVal.ref 4)],
   PyObj.dict [("model", PyVal.str "model-b"), ("parameters", PyVal.ref 5)],
   PyObj.dict [("weight", PyVal.num (9/10)), ("density", PyVal.num (1/2))],
   PyObj.dict [("weight", PyVal.num (1/10)), ("density", PyVal.num (1/2))],
   PyObj.dict [("lambda", PyVal.num 1)]]

example : readModelField linearBase 0 0 "weight" = some (1/2) := by
  with_unfolding_all decide

example : (mutateLinear linearBase 0 (3/10) (7/10)).map
    (fun p => readModelField p.1 0 0 "weight") = some (some (3/10)) := by
  with_unfolding_all decide

end PyHeap

namespace SweepDriver

/-- One observable action of a sweep iteration for combination index `i`:
writing the mutated recipe file, removing the stale output directory,
invoking the merge tool, invoking the upload tool, logging the iteration's
failure, or logging its success. -/
inductive Ev where
  | wrote (i : ℕ) : Ev
  | rmdir (i : ℕ) : Ev
  | mergeCall (i : ℕ) : Ev
  | pushCall (i : ℕ) : Ev
  | logFail (i : ℕ) : Ev
  | logOk (i : ℕ) : Ev
  deriving DecidableEq

/-- The combination index an event belongs to. -/
def Ev.idx : Ev → ℕ
  | Ev.wrote i => i
  | Ev.rmdir i => i
  | Ev.mergeCall i => i
  | Ev.pushCall i => i
  | Ev.logFail i => i
  | Ev.logOk i => i

/-- The environment of one sweep run: per combination index, whether the
output directory pre-exists, whether `shutil.rmtree` raises, and whether
the merge / upload subprocess exits non-zero (raising
`CalledProcessError`). -/
structure Env where
  dirExists : ℕ → Bool
  rmFails : ℕ → Bool
  mergeFails : ℕ → Bool
  pushFails : ℕ → Bool

/-- The `try: run_merge; run_push_to_hub; print(success) except Exception:
print(error)` block shared by `merge_scan_linear.py` lines 93-101 and
`merge_scan_ties.py` lines 140-148. -/
def tryBlock (env : Env) (i : ℕ) : List Ev :=
  Ev.mergeCall i ::
    (if env.mergeFails i then [Ev.logFail i]
     else Ev.pushCall i ::
       (if env.pushFails i then [Ev.logFail i] else [Ev.logOk i]))

/-- One iteration of the sweep loop body (`merge_scan_linear.py` lines
73-104, `merge_scan_ties.py` lines 113-151): write the mutated recipe,
then `if os.path.exists(out): shutil.rmtree(out)` — which is *outside* the
`try` block — then the guarded merge/upload calls. The Bool is true when
the iteration raised an uncaught exception (from `rmtree`). -/
def iterEvs (env : Env) (i : ℕ) : List Ev × Bool :=
  if env.dirExists i then
    if env.rmFails i then ([Ev.wrote i], true)
    else ([Ev.wrote i, Ev.rmdir i] ++ tryBlock env i, false)
  else ([Ev.wrote i] ++ tryBlock env i, false)

/-- The sweep loop over combination indices `i0, i0+1, ...` (`k` of them):
iterations run in order; an uncaught exception propagates out of `main`,
ending the whole sweep. -/
def runSweepFrom (env : Env) : ℕ → ℕ → List Ev
  | _, 0 => []
  | i0, k + 1 =>
    let (evs, crashed) := iterEvs env i0
    if crashed then evs else evs ++ runSweepFrom env (i0 + 1) k

/-- The event trace of a sweep over `n` parameter combinations. -/
def runSweep (env : Env) (n : ℕ) : List Ev := runSweepFrom env 0 n

theorem iterEvs_idx (env : Env) (i : ℕ) :
    ∀ e ∈ (iterEvs env i).1, e.idx = i := by
  cases hd : env.dirExists i <;> cases hr : env.rmFails i <;>
    cases hm : env.mergeFails i <;> cases hp : env.pushFails i <;>
    simp [iterEvs, tryBlock, hd, hr, hm, hp, Ev.idx]

end SweepDriver

namespace PathStr

open MergeScan

/-- Decimal digit characters of a natural number (most significant first),
as Python's integer formatting produces them. -/
def natChars (n : ℕ) : List Char :=
  if n = 0 then ['0'] else (Nat.digits 10 n).reverse.map Nat.digitChar

/-- The fractional digits (out of three) of `r < 1000` with trailing zeros
trimmed but at least one digit kept, as Python's float `repr` renders the
fraction of a 3-decimal value. -/
def frac3 (r : ℕ) : List Char :=
  if r % 10 = 0 then
    (if r / 10 % 10 = 0 then [Nat.digitChar (r / 100)]
     else [Nat.digitChar (r / 100), Nat.digitChar (r / 10 % 10)])
  else [Nat.digitChar (r / 100), Nat.digitChar (r / 10 % 10),
        Nat.digitChar (r % 10)]

/-- Decimal rendering of the non-negative 3-decimal-grid value `m / 1000`:
integer part, decimal point, trimmed fraction digits. -/
def posRender (m : ℕ) : List Char :=
  natChars (m / 1000) ++ '.' :: frac3 (m % 1000)

/-- Python's f-string rendering of a float that lies on the 3-decimal grid
(`repr` of such a float is its shortest decimal form, e.g. `0.3`, `1.0`,
`-0.35`, `0.125`). -/
def pyFloatRepr (q : ℚ) : List Char :=
  if q < 0 then '-' :: posRender (-(q * 1000)).num.toNat
  else posRender (q * 1000).num.toNat

example : pyFloatRepr (3/10) = ['0', '.', '3'] := by with_unfolding_all decide

example : pyFloatRepr 1 = ['1', '.', '0'] := by with_unfolding_all decide

example : pyFloatRepr (-7/20) = ['-', '0', '.', '3', '5'] := by
  with_unfolding_all decide

theorem digitChar_inj {a b : ℕ} (ha : a < 10) (hb : b < 10)
    (h : Nat.digitChar a = Nat.digitChar b) : a = b := by
  interval_cases a <;> interval_cases b <;> simp_all [Nat.digitChar]

theorem digitChar_ne {a : ℕ} (ha : a < 10) :
    Nat.digitChar a ≠ '.' ∧ Nat.digitChar a ≠ '-' ∧ Nat.digitChar a ≠ '_' := by
  interval_cases a <;> simp [Nat.digitChar]

theorem map_digitChar_inj : ∀ {l1 l2 : List ℕ}, (∀ x ∈ l1, x < 10) →
    (∀ x ∈ l2, x < 10) → l1.map Nat.digitChar = l2.map Nat.digitChar →
    l1 = l2
  | [], [], _, _, _ => rfl
  | [], _ :: _, _, _, h => by simp at h
  | _ :: _, [], _, _, h => by simp at h
  | a :: l1, b :: l2, h1, h2, h => by
    simp only [List.map_cons, List.cons.injEq] at h
    have hd : a = b :=
      digitChar_inj (h1 a (by simp)) (h2 b (by simp)) h.1
    have ht : l1 = l2 :=
      map_digitChar_inj (fun x hx => h1 x (by simp [hx]))
        (fun x hx => h2 x (by simp [hx])) h.2
    rw [hd, ht]

/-- Every character of `natChars` is a decimal digit character. -/
theorem natChars_chars {n : ℕ} :
    ∀ c ∈ natChars n, ∃ d, d < 10 ∧ c = Nat.digitChar d := by
  intro c hc
  unfold natChars at hc
  by_cases h : n = 0
  · simp [h] at hc
    exact ⟨0, by norm_num, by simp [hc, Nat.digitChar]⟩
  · simp only [h, if_false, List.mem_map, List.mem_reverse] at hc
    obtain ⟨d, hd, rfl⟩ := hc
    exact ⟨d, Nat.digits_lt_base (by norm_num) hd, rfl⟩

theorem natChars_inj {m n : ℕ} (h : natChars m = natChars n) : m = n := by
  unfold natChars at h
  by_cases hm : m = 0 <;> by_cases hn : n = 0
  · rw [hm, hn]
  · exfalso
    simp only [hm, if_pos, hn, if_neg, not_false_iff] at h
    have hne := (@Nat.digits_ne_nil_iff_ne_zero 10 n).mpr hn
    rcases hrev : (Nat.digits 10 n).reverse with _ | ⟨d, ds⟩
    · exact hne (by simpa using congrArg List.reverse hrev)
    · rw [hrev] at h
      simp only [List.map_cons, List.cons.injEq] at h
      have hd10 : d < 10 := Nat.digits_lt_base (by norm_num)
        (by rw [← List.mem_reverse, hrev]; simp)
      have hds : ds = [] := List.map_eq_nil_iff.mp h.2.symm
      have hd0 : d = 0 :=
        (digitChar_inj (by norm_num) hd10
          (show Nat.digitChar 0 = Nat.digitChar d from h.1)).symm
      have hdig : Nat.digits 10 n = [0] := by
        have := congrArg List.reverse hrev
        simpa [hds, hd0] using this
      have : n = 0 := by
        have := congrArg (Nat.ofDigits 10) hdig
        rwa [Nat.ofDigits_digits, Nat.ofDigits_singleton] at this
      exact hn this
  · exfalso
    simp only [hn, if_pos, hm, if_neg, not_false_iff] at h
    have hne := (@Nat.digits_ne_nil_iff_ne_zero 10 m).mpr hm
    rcases hrev : (Nat.digits 10 m).reverse with _ | ⟨d, ds⟩
    · exact hne (by simpa using congrArg List.reverse hrev)
    · rw [hrev] at h
      simp only [List.map_cons, List.cons.injEq] at h
      have hd10 : d < 10 := Nat.digits_lt_base (by norm_num)
        (by rw [← List.mem_reverse, hrev]; simp)
      have hds : ds = [] := List.map_eq_nil_iff.mp h.2
      have hd0 : d = 0 := digitChar_inj hd10 (by norm_num)
        (show Nat.digitChar d = Nat.digitChar 0 from h.1)
      have hdig : Nat.digits 10 m = [0] := by
        have := congrArg List.reverse hrev
        simpa [hds, hd0] using this
      have : m = 0 := by
        have := congrArg (Nat.ofDigits 10) hdig
        rwa [Nat.ofDigits_digits, Nat.ofDigits_singleton] at this
      exact hm this
  · have : Nat.digits 10 m = Nat.digits 10 n := by
      simp only [hm, hn, if_neg, not_false_iff] at h
      have := map_digitChar_inj
        (fun x hx => Nat.digits_lt_base (by norm_num)
          (List.mem_reverse.mp hx))
        (fun x hx => Nat.digits_lt_base (by norm_num)
          (List.mem_reverse.mp hx)) h
      exact List.reverse_injective this
    have := congrArg (Nat.ofDigits 10) this
    rwa [Nat.ofDigits_digits, Nat.ofDigits_digits] at this

theorem frac3_chars {r : ℕ} (hr : r < 1000) :
    ∀ c ∈ frac3 r, ∃ d, d < 10 ∧ c = Nat.digitChar d := by
  intro c hc
  unfold frac3 at hc
  by_cases h1 : r % 10 = 0
  · by_cases h2 : r / 10 % 10 = 0
    · rw [if_pos h1, if_pos h2] at hc
      simp at hc
      exact ⟨r / 100, by omega, hc⟩
    · rw [if_pos h1, if_neg h2] at hc
      simp at hc
      rcases hc with rfl | rfl
      · exact ⟨r / 100, by omega, rfl⟩
      · exact ⟨r / 10 % 10, by omega, rfl⟩
  · rw [if_neg h1] at hc
    simp at hc
    rcases hc with rfl | rfl | rfl
    · exact ⟨r / 100, by omega, rfl⟩
    · exact ⟨r / 10 % 10, by omega, rfl⟩
    · exact ⟨r % 10, by omega, rfl⟩

/-- Padding the trimmed fraction digits back to three digits recovers the
digit string, the key to injectivity of the trimming. -/
theorem frac3_pad (r : ℕ) :
    frac3 r ++ List.replicate (3 - (frac3 r).length) '0' =
      [Nat.digitChar (r / 100), Nat.digitChar (r / 10 % 10),
       Nat.digitChar (r % 10)] := by
  unfold frac3
  by_cases h1 : r % 10 = 0
  · by_cases h2 : r / 10 % 10 = 0
    · rw [if_pos h1, if_pos h2, h1, h2]; rfl
    · rw [if_pos h1, if_neg h2, h1]; rfl
  · rw [if_neg h1]; rfl

theorem frac3_inj {r s : ℕ} (hr : r < 1000) (hs : s < 1000)
    (h : frac3 r = frac3 s) : r = s := by
  have key : ([Nat.digitChar (r / 100), Nat.digitChar (r / 10 % 10),
      Nat.digitChar (r % 10)] : List Char) =
      [Nat.digitChar (s / 100), Nat.digitChar (s / 10 % 10),
       Nat.digitChar (s % 10)] := by
    rw [← frac3_pad r, ← frac3_pad s, h]
  simp only [List.cons.injEq, and_true] at key
  have e1 := digitChar_inj (by omega) (by omega) key.1
  have e2 := digitChar_inj (by omega) (by omega) key.2.1
  have e3 := digitChar_inj (by omega) (by omega) key.2.2
  omega

/-- Every character of `posRender` is a decimal digit or the point. -/
theorem posRender_chars {m : ℕ} :
    ∀ c ∈ posRender m, (∃ d, d < 10 ∧ c = Nat.digitChar d) ∨ c = '.' := by
  intro c hc
  unfold posRender at hc
  rcases List.mem_append.mp hc with h | h
  · exact Or.inl (natChars_chars c h)
  · rcases List.mem_cons.mp h with rfl | h
    · exact Or.inr rfl
    · exact Or.inl (frac3_chars (Nat.mod_lt m (by norm_num)) c h)

theorem dot_not_mem_natChars {n : ℕ} : '.' ∉ natChars n := by
  intro hmem
  rcases natChars_chars '.' hmem with ⟨d, hd, hc⟩
  exact (digitChar_ne hd).1 hc.symm

/-- Splitting a character list at a separator that occurs in neither left
part is unambiguous. -/
theorem append_sep_inj {sep : Char} {a : List Char} :
    ∀ {a' b b' : List Char}, sep ∉ a → sep ∉ a' →
      a ++ sep :: b = a' ++ sep :: b' → a = a' ∧ b = b' := by
  induction a with
  | nil =>
    intro a' b b' _ ha' h
    cases a' with
    | nil => simpa using h
    | cons x xs =>
      exfalso
      simp only [List.nil_append, List.cons_append, List.cons.injEq] at h
      refine ha' ?_
      rw [h.1]
      exact List.mem_cons_self x xs
  | cons x xs ih =>
    intro a' b b' ha ha' h
    cases a' with
    | nil =>
      exfalso
      simp only [List.nil_append, List.cons_append, List.cons.injEq] at h
      refine ha ?_
      rw [← h.1]
      exact List.mem_cons_self x xs
    | cons y ys =>
      simp only [List.cons_append, List.cons.injEq] at h
      obtain ⟨rfl, h2⟩ := h
      have hres := ih (fun hx => ha (List.mem_cons_of_mem _ hx))
        (fun hx => ha' (List.mem_cons_of_mem _ hx)) h2
      exact ⟨by rw [hres.1], hres.2⟩

theorem posRender_inj {m n : ℕ} (h : posRender m = posRender n) : m = n := by
  unfold posRender at h
  have hs := append_sep_inj dot_not_mem_natChars dot_not_mem_natChars h
  have e1 := natChars_inj hs.1
  have e2 := frac3_inj (Nat.mod_lt m (by norm_num))
    (Nat.mod_lt n (by norm_num)) hs.2
  omega

/-- On the 3-decimal grid, `pyFloatRepr` of `z / 1000` is the signed
decimal rendering of `z`. -/
theorem pyFloatRepr_grid (z : ℤ) :
    pyFloatRepr ((z : ℚ) / 1000) =
      if z < 0 then '-' :: posRender (-z).toNat
      else posRender z.toNat := by
  unfold pyFloatRepr
  have h1 : ((z : ℚ) / 1000) * 1000 = (z : ℚ) := by ring
  have h2 : ((z : ℚ) / 1000 < 0) ↔ z < 0 := by
    rw [div_lt_iff₀ (by norm_num : (0 : ℚ) < 1000)]
    simp
  rw [h1]
  by_cases hz : z < 0
  · rw [if_pos (h2.mpr hz), if_pos hz]
    have : -(z : ℚ) = ((-z : ℤ) : ℚ) := by push_cast; ring
    rw [this, Rat.num_intCast]
  · rw [if_neg (fun hc => hz (h2.mp hc)), if_neg hz, Rat.num_intCast]

theorem dash_not_mem_posRender {m : ℕ} : '-' ∉ posRender m := by
  intro hmem
  rcases posRender_chars '-' hmem with ⟨d, hd, hc⟩ | hc
  · exact (digitChar_ne hd).2.1 hc.symm
  · exact absurd hc (by decide)

theorem underscore_not_mem_posRender {m : ℕ} : '_' ∉ posRender m := by
  intro hmem
  rcases posRender_chars '_' hmem with ⟨d, hd, hc⟩ | hc
  · exact (digitChar_ne hd).2.2 hc.symm
  · exact absurd hc (by decide)

theorem posRender_ne_nil {m : ℕ} : posRender m ≠ [] := by
  unfold posRender
  intro h
  have := congrArg List.length h
  simp at this

/-- The rendering of a float on the 3-decimal grid never contains an
underscore, so it can be recovered from an underscore-separated path. -/
theorem underscore_not_mem_pyFloatRepr {q : ℚ} (hq : MergeScan.isGrid3 q) :
    '_' ∉ pyFloatRepr q := by
  rcases (MergeScan.isGrid3_iff q).mp hq with ⟨z, rfl⟩
  rw [pyFloatRepr_grid]
  by_cases hz : z < 0
  · rw [if_pos hz]
    intro hmem
    rcases List.mem_cons.mp hmem with hc | hc
    · exact absurd hc (by decide)
    · exact underscore_not_mem_posRender hc
  · rw [if_neg hz]
    exact underscore_not_mem_posRender

/-- Distinct floats on the 3-decimal grid render to distinct strings. -/
theorem pyFloatRepr_inj {q r : ℚ} (hq : MergeScan.isGrid3 q)
    (hr : MergeScan.isGrid3 r) (h : pyFloatRepr q = pyFloatRepr r) :
    q = r := by
  rcases (MergeScan.isGrid3_iff q).mp hq with ⟨z, rfl⟩
  rcases (MergeScan.isGrid3_iff r).mp hr with ⟨y, rfl⟩
  rw [pyFloatRepr_grid, pyFloatRepr_grid] at h
  have hzy : z = y := by
    by_cases hz : z < 0 <;> by_cases hy : y < 0
    · rw [if_pos hz, if_pos hy] at h
      have := posRender_inj (List.cons.injEq _ _ _ _ ▸ h :
        ('-' = '-' ∧ posRender (-z).toNat = posRender (-y).toNat)).2
      omega
    · rw [if_pos hz, if_neg hy] at h
      exfalso
      have : '-' ∈ posRender y.toNat := by
        rw [← h]
        exact List.mem_cons_self _ _
      exact dash_not_mem_posRender this
    · rw [if_neg hz, if_pos hy] at h
      exfalso
      have : '-' ∈ posRender z.toNat := by
        rw [h]
        exact List.mem_cons_self _ _
      exact dash_not_mem_posRender this
    · rw [if_neg hz, if_neg hy] at h
      have := posRender_inj h
      omega
  rw [hzy]

/-- The temporary recipe path of the linear sweep,
`merge_scan_linear.py` line 85:
`temp_yaml_path = f"{YAML_DIR}/weights_{weight_1}_{weight_2}.yml"` with
`YAML_DIR = "scratch/tmp_yamls/linear"`. -/
def linearTempPath (w1 : ℚ) : List Char :=
  "scratch/tmp_yamls/linear/weights_".data ++ pyFloatRepr w1
    ++ '_' :: (pyFloatRepr (MergeScanLinear.weight_2 w1) ++ ".yml".data)

/-- The per-combination output directory of the linear sweep,
`merge_scan_linear.py` line 81:
`current_output_dir = f"{args.output_dir}_{weight_1}_{weight_2}"`. -/
def linearOutputDir (base : List Char) (w1 : ℚ) : List Char :=
  base ++ '_' :: (pyFloatRepr w1
    ++ '_' :: pyFloatRepr (MergeScanLinear.weight_2 w1))

/-- The density fragment of the TIES temp path, `merge_scan_ties.py`
line 119: `"" if density_1 is None else f"_density_{density_1}_{density_2}"`. -/
def densityStrTies : Option (ℚ × ℚ) → List Char
  | none => []
  | some (d1, d2) => "_density_".data ++ pyFloatRepr d1 ++ '_' :: pyFloatRepr d2

/-- The temporary recipe path of the TIES sweep, `merge_scan_ties.py`
lines 118, 132:
`f"scratch/temp_yamls_ties/v00.00_v01.00_lambda_{lmda}{density_str}.yml"`. -/
def tiesTempPath (lmda : ℚ) (dp : Option (ℚ × ℚ)) : List Char :=
  "scratch/temp_yamls_ties/v00.00_v01.00_lambda_".data ++ pyFloatRepr lmda
    ++ densityStrTies dp ++ ".yml".data

/-- The output directory the TIES sweep passes to the merge tool,
`merge_scan_ties.py` line 141: it is `args.output_dir` itself, with no
per-combination suffix. -/
def tiesOutputDir (base : List Char) (_lmda : ℚ) (_dp : Option (ℚ × ℚ)) :
    List Char :=
  base

theorem linearTempPath_inj {w w' : ℚ} (hw : MergeScan.isGrid3 w)
    (hw' : MergeScan.isGrid3 w') (h : linearTempPath w = linearTempPath w') :
    w = w' := by
  unfold linearTempPath at h
  rw [List.append_assoc, List.append_assoc] at h
  have h2 := List.append_cancel_left h
  have h3 := append_sep_inj (underscore_not_mem_pyFloatRepr hw)
    (underscore_not_mem_pyFloatRepr hw') h2
  exact pyFloatRepr_inj hw hw' h3.1

theorem linearOutputDir_inj {base : List Char} {w w' : ℚ}
    (hw : MergeScan.isGrid3 w) (hw' : MergeScan.isGrid3 w')
    (h : linearOutputDir base w = linearOutputDir base w') : w = w' := by
  unfold linearOutputDir at h
  have h2 := List.append_cancel_left h
  have h3 : pyFloatRepr w ++ '_' :: pyFloatRepr (MergeScanLinear.weight_2 w) =
      pyFloatRepr w' ++ '_' :: pyFloatRepr (MergeScanLinear.weight_2 w') := by
    injection h2
  have h4 := append_sep_inj (underscore_not_mem_pyFloatRepr hw)
    (underscore_not_mem_pyFloatRepr hw') h3
  exact pyFloatRepr_inj hw hw' h4.1

theorem tiesTempPath_inj_none {l l' : ℚ} (hl : MergeScan.isGrid3 l)
    (hl' : MergeScan.isGrid3 l')
    (h : tiesTempPath l none = tiesTempPath l' none) : l = l' := by
  unfold tiesTempPath densityStrTies at h
  rw [List.append_nil, List.append_nil, List.append_assoc,
    List.append_assoc] at h
  have h2 := List.append_cancel_left h
  have h3 := List.append_cancel_right h2
  exact pyFloatRepr_inj hl hl' h3

theorem tiesTempPath_inj_some {l l' d1 d2 d1' d2' : ℚ}
    (hl : MergeScan.isGrid3 l) (hl' : MergeScan.isGrid3 l')
    (hd1 : MergeScan.isGrid3 d1) (hd1' : MergeScan.isGrid3 d1')
    (hd2 : MergeScan.isGrid3 d2) (hd2' : MergeScan.isGrid3 d2')
    (h : tiesTempPath l (some (d1, d2)) = tiesTempPath l' (some (d1', d2'))) :
    l = l' ∧ d1 = d1' ∧ d2 = d2' := by
  unfold tiesTempPath densityStrTies at h
  simp only [List.append_assoc, List.cons_append, List.nil_append,
    List.cons.injEq, true_and] at h
  have h3 := append_sep_inj (underscore_not_mem_pyFloatRepr hl)
    (underscore_not_mem_pyFloatRepr hl') h
  refine ⟨pyFloatRepr_inj hl hl' h3.1, ?_⟩
  have h4 := h3.2
  simp only [List.cons.injEq, true_and] at h4
  have h5 := append_sep_inj (underscore_not_mem_pyFloatRepr hd1)
    (underscore_not_mem_pyFloatRepr hd1') h4
  refine ⟨pyFloatRepr_inj hd1 hd1' h5.1, ?_⟩
  have h6 := List.append_cancel_right h5.2
  exact pyFloatRepr_inj hd2 hd2' h6

end PathStr

namespace ModelSoup

/-- The maximal run of digit characters at the end of a name: the text the
`step-(\d+)$` capture group of `model_soup.py` line 41 matches. -/
def trailingDigits (l : List Char) : List Char :=
  (l.reverse.takeWhile Char.isDigit).reverse

/-- Whether `re.compile(f"{revision_pattern}-step-\\d+$").search(name)`
succeeds (`model_soup.py` lines 31, 38): the name must end with the
revision pattern, the literal `-step-`, and at least one digit. Because the
character before the digit run of a match is the non-digit `-`, the digits
of any match form exactly the maximal trailing digit run. -/
def matchesPattern (rev : String) (name : String) : Bool :=
  let ds := trailingDigits name.data
  !ds.isEmpty &&
    (rev.data ++ "-step-".data).isSuffixOf
      (name.data.take (name.data.length - ds.length))

/-- Decimal value of a digit string. -/
def digitsVal (l : List Char) : ℕ :=
  l.foldl (fun acc c => 10 * acc + (c.toNat - 48)) 0

/-- `int(re.search(r"step-(\d+)$", rev).group(1))`, the sort key of
`model_soup.py` line 41. -/
def parseStepNum (name : String) : ℕ := digitsVal (trailingDigits name.data)

/-- The sort relation used by `matching_revisions.sort(key=...)`: ascending
step number. -/
def stepLE (a b : String) : Prop := parseStepNum a ≤ parseStepNum b

instance : DecidableRel stepLE := fun a b =>
  inferInstanceAs (Decidable (parseStepNum a ≤ parseStepNum b))

instance : IsTotal String stepLE := ⟨fun _ _ => Nat.le_total _ _⟩

instance : IsTrans String stepLE := ⟨fun _ _ _ => Nat.le_trans⟩

/-- Function `get_model_revisions` of `model_soup.py` lines 29-46: filter
the repository's branch names by the pattern, then sort ascending by the
parsed step number (Python's stable sort; `List.insertionSort` is stable,
so it computes the same list). When `list_repo_refs` raises, the
`except` branch returns the empty list, modelled by the `raised` flag. -/
def get_model_revisions (raised : Bool) (branches : List String)
    (rev : String) : List String :=
  if raised then []
  else List.insertionSort stepLE (branches.filter (matchesPattern rev))

/-- One `models` entry of the soup recipe. -/
structure SoupEntry where
  model : String
  weight : ℚ
  deriving DecidableEq

/-- The YAML recipe built by `create_merge_recipe` (`model_soup.py` lines
48-71); its `models` entries are fresh per call so plain data suffices. -/
structure SoupRecipe where
  models : List SoupEntry
  merge_method : String
  dtype : String
  chat_template : String
  deriving DecidableEq

/-- Function `create_merge_recipe` of `model_soup.py` lines 48-71:
`weight = 1.0 / len(revisions)` for every entry, entries in the order of
`revisions`, `merge_method: linear`. -/
def create_merge_recipe (model_id : String) (revisions : List String)
    (dtype chat_template : String) : SoupRecipe :=
  ⟨revisions.map (fun r => ⟨model_id ++ "@" ++ r, 1 / (revisions.length : ℚ)⟩),
   "linear", dtype, chat_template⟩

/-- The recipe-producing part of `main` (`model_soup.py` lines 85-115): if
no revision matches (or listing raised), print and return — no recipe, no
merge, no upload invocation — else build the recipe from the sorted
matching revisions. -/
def soupMain (raised : Bool) (branches : List String)
    (rev model_id dtype chat_template : String) : Option SoupRecipe :=
  let revisions := get_model_revisions raised branches rev
  if revisions.isEmpty then none
  else some (create_merge_recipe model_id revisions dtype chat_template)

example : get_model_revisions false ["m-step-10", "none", "m-step-2"] "m" =
    ["m-step-2", "m-step-10"] := by with_unfolding_all decide

example : get_model_revisions false ["a-step-5", "ba-step-5"] "a" =
    ["a-step-5", "ba-step-5"] := by with_unfolding_all decide

end ModelSoup

namespace MergeScanLinear

open MergeScan

/-- Every element of the generated weight list is a value of `round(_, 3)`
and hence lies on the 3-decimal grid. -/
theorem mem_weightsAux_grid {start wend step : ℚ} :
    ∀ {fuel : ℕ} {current w : ℚ},
      w ∈ weightsAux start wend step fuel current → isGrid3 w := by
  intro fuel
  induction fuel with
  | zero => intro current w hw; simp [weightsAux] at hw
  | succ f ih =>
    intro current w hw
    unfold weightsAux at hw
    by_cases hg : (if start ≤ wend then current ≤ wend + 1/1000000
        else wend - 1/1000000 ≤ current)
    · rw [if_pos hg] at hw
      rcases List.mem_cons.mp hw with rfl | hw2
      · exact isGrid3_roundTo3 current
      · by_cases he : ratEq start wend = true
        · rw [if_pos he] at hw2
          simp at hw2
        · rw [if_neg he] at hw2
          exact ih hw2
    · rw [if_neg hg] at hw
      simp at hw

end MergeScanLinear

/-- C1: the recipe mutator is claimed never to mutate its input, but
`update_weights(original_yaml.copy(), w1, w2)` performs a *shallow* copy:
the nested `models[i]["parameters"]` dicts are shared with the base
recipe, so the call overwrites the base recipe's weights. For the
representative base recipe with both weights `0.5`, after the call of
iteration `(0.3, 0.7)` the base recipe's `models[0].parameters.weight`
reads `0.3` and `models[1].parameters.weight` reads `0.7`, contradicting
the claim that they are unchanged. -/
theorem C1_shallow_copy_mutates_base :
    PyHeap.readModelField PyHeap.linearBase 0 0 "weight" = some (1/2) ∧
    PyHeap.readModelField PyHeap.linearBase 0 1 "weight" = some (1/2) ∧
    (PyHeap.mutateLinear PyHeap.linearBase 0 (3/10) (7/10)).map
        (fun p => (PyHeap.readModelField p.1 0 0 "weight",
                   PyHeap.readModelField p.1 0 1 "weight"))
      = some (some (3/10), some (7/10)) := by
  refine ⟨?_, ?_, ?_⟩ <;> with_unfolding_all decide

/-- C8: for every weight in any generated weight list, the second weight is
`round(1 - w1, 3)`, which equals `1 - w1` exactly because `w1` lies on the
3-decimal grid, so the pair sums to exactly `1`. -/
theorem C8_weight_pair_sums_to_one (fuel : ℕ) (start wend step w1 : ℚ)
    (h : w1 ∈ MergeScanLinear.pyWeights fuel start wend step) :
    MergeScanLinear.weight_2 w1 = 1 - w1 ∧
      w1 + MergeScanLinear.weight_2 w1 = 1 := by
  have hg : MergeScan.isGrid3 w1 := MergeScanLinear.mem_weightsAux_grid h
  have h2 : MergeScanLinear.weight_2 w1 = 1 - w1 :=
    MergeScan.roundTo_eq_self_of_grid3
      (MergeScan.isGrid3_sub MergeScan.isGrid3_one hg)
  exact ⟨h2, by rw [h2]; ring⟩

/-- Witness for C8 at the sweep `start=0.3, end=0.7, step=0.2` and its
generated weight `0.5`. -/
theorem C8_weight_pair_sums_to_one_witness :
    (1/2 : ℚ) ∈ MergeScanLinear.pyWeights 5 (3/10) (7/10) (2/10) ∧
      MergeScanLinear.weight_2 (1/2) = 1 - 1/2 ∧
      (1/2 : ℚ) + MergeScanLinear.weight_2 (1/2) = 1 := by
  have hm : (1/2 : ℚ) ∈ MergeScanLinear.pyWeights 5 (3/10) (7/10) (2/10) := by
    with_unfolding_all decide
  exact ⟨hm, C8_weight_pair_sums_to_one 5 (3/10) (7/10) (2/10) (1/2) hm⟩

namespace MergeScanTies

open MergeScan

/-- For any nonzero step, `np.arange(s, s + step/2, step)` contains exactly
the single value `s` (the length is `ceil(1/2) = 1` for either sign of the
step). -/
theorem npArange_half (s st : ℚ) (hs : st ≠ 0) :
    npArange s (s + st / 2) st = some [s] := by
  unfold npArange
  rw [if_neg (fun hb => hs (ratEq_iff.mp hb))]
  have harg : (s + st / 2 - s) / st = 1/2 := by
    field_simp
    ring
  rw [harg]
  have hfl : qfloor (-(1/2 : ℚ)) = -1 := by with_unfolding_all decide
  rw [hfl]
  norm_num [List.range_succ]

end MergeScanTies

namespace MergeScanLinear

open MergeScan

/-- When start equals end, the loop appends `round(start, 3)` once and
breaks, for every step size including zero. -/
theorem pyWeights_start_eq_end (start step : ℚ) (fuel : ℕ) (hf : 1 ≤ fuel) :
    pyWeights fuel start start step = [roundTo 3 start] := by
  obtain ⟨f, rfl⟩ : ∃ f, fuel = f + 1 := ⟨fuel - 1, by omega⟩
  unfold pyWeights weightsAux
  have hguard : (if start ≤ start then start ≤ start + 1/1000000
      else start - 1/1000000 ≤ start) := by
    rw [if_pos (le_refl start)]
    linarith
  rw [if_pos hguard, if_pos (ratEq_iff.mpr rfl)]

end MergeScanLinear

/-- C5 counterexample: the claim says that for start = end the generated
sequence is exactly the single value `start`, for every sweep type and
every step including `0`. Both parts fail on the code: the weight sweep
with `start = end = 0.0006` produces `[0.001]` (the appended element is
`round(start, 3)`, not `start`); and the lambda sweep with
`lambda-start = lambda-end = 1` and `lambda-step = 0` reaches
`np.arange(1, 1, 0)`, which raises instead of producing `[1]`. -/
theorem C5_counterexample :
    MergeScanLinear.pyWeights 5 (6/10000) (6/10000) (1/10) = [1/1000] ∧
    ((1 : ℚ)/1000 ≠ 6/10000) ∧
    MergeScanTies.lambdaValues 1 (some 1) 0 = none := by
  refine ⟨?_, ?_, ?_⟩ <;> with_unfolding_all decide

/-- C5 amended: when start equals end, the weight sweep produces exactly
the single value `round(start, 3)` for every step including `0`; the
lambda sweep with `lambda-end` specified produces exactly the single value
`round(start, 2)` for every nonzero step and raises for step `0`; the
lambda sweep with `lambda-end` absent produces exactly `[start]`; and the
density sweep's pair list for equal bounds and nonzero step is the single
pair `(round(start,2), round(start,2))`. In particular the sequence is the
one-element `[start]` whenever `start` lies on the respective rounding
grid. -/
theorem C5_start_eq_end_singleton (start step : ℚ) (fuel : ℕ)
    (hf : 1 ≤ fuel) :
    MergeScanLinear.pyWeights fuel start start step =
        [MergeScan.roundTo 3 start] ∧
    (step ≠ 0 → MergeScanTies.lambdaValues start (some start) step =
        some [MergeScan.roundTo 2 start]) ∧
    MergeScanTies.lambdaValues start (some start) 0 = none ∧
    MergeScanTies.lambdaValues start none step = some [start] ∧
    (step ≠ 0 → MergeScanTies.densityPairs (some start) (some start) step =
        some [some (MergeScan.roundTo 2 start,
          MergeScan.roundTo 2 start)]) := by
  refine ⟨?_, ?_, ?_, ?_, ?_⟩
  · exact MergeScanLinear.pyWeights_start_eq_end start step fuel hf
  · intro hs
    rw [show MergeScanTies.lambdaValues start (some start) step =
          (MergeScanTies.npArange start (start + step / 2) step).map
            (fun xs => xs.map (MergeScan.roundTo 2)) from rfl,
        MergeScanTies.npArange_half start step hs]
    rfl
  · rw [show MergeScanTies.lambdaValues start (some start) 0 =
          (MergeScanTies.npArange start (start + 0 / 2) 0).map
            (fun xs => xs.map (MergeScan.roundTo 2)) from rfl]
    rw [show MergeScanTies.npArange start (start + 0 / 2) 0 = none from by
      unfold MergeScanTies.npArange
      rw [if_pos (MergeScan.ratEq_iff.mpr rfl)]]
    rfl
  · rfl
  · intro hs
    rw [show MergeScanTies.densityPairs (some start) (some start) step =
          (MergeScanTies.npArange start (start + step / 2) step).map
            (fun axis => axis.flatMap (fun d1 => axis.map
              (fun d2 => some (MergeScan.roundTo 2 d1,
                MergeScan.roundTo 2 d2)))) from rfl,
        MergeScanTies.npArange_half start step hs]
    rfl

/-- Witness for C5 amended at `start = 0.5`, fuel 1, both at `step = 0.1`
and at `step = 0` (the weight-sweep conjunct covers the zero step). -/
theorem C5_start_eq_end_singleton_witness :
    (1 ≤ 1 ∧ (1/10 : ℚ) ≠ 0) ∧
    MergeScanLinear.pyWeights 1 (1/2) (1/2) (1/10) =
        [MergeScan.roundTo 3 (1/2)] ∧
    MergeScanLinear.pyWeights 1 (1/2) (1/2) 0 =
        [MergeScan.roundTo 3 (1/2)] ∧
    MergeScanTies.lambdaValues (1/2) (some (1/2)) (1/10) =
        some [MergeScan.roundTo 2 (1/2)] := by
  have h1 := C5_start_eq_end_singleton (1/2) (1/10) 1 (le_refl 1)
  have h0 := C5_start_eq_end_singleton (1/2) 0 1 (le_refl 1)
  exact ⟨⟨le_refl 1, by norm_num⟩, h1.1, h0.1, h1.2.1 (by norm_num)⟩

/-- C9: when both density bounds are given, the generated pair list is
exactly the cross-product (`List.product`, i.e. `d1` outer, `d2` inner) of
the rounded axis sequence with itself — no duplicates and no omissions
beyond those of the cross-product itself; for bounds `0.2`/`0.3` and step
`0.1` it is exactly the four pairs, duplicate-free; and when either bound
is absent the pair list is the single `(None, None)` marker, for which the
driver skips `update_densities`, leaving the recipe's density fields
unmodified (shown on the representative TIES recipe, whose densities read
`0.5` before and after the lambda-only mutation). -/
theorem C9_density_cross_product (s e st : ℚ) (axis : List ℚ)
    (h : MergeScanTies.npArange s (e + st / 2) st = some axis) :
    MergeScanTies.densityPairs (some s) (some e) st =
        some (((axis.map (MergeScan.roundTo 2)) ×ˢ
          (axis.map (MergeScan.roundTo 2))).map
            (fun p => some p)) ∧
    MergeScanTies.densityPairs (some (2/10)) (some (3/10)) (1/10) =
        some [some (2/10, 2/10), some (2/10, 3/10),
              some (3/10, 2/10), some (3/10, 3/10)] ∧
    ([some ((2 : ℚ)/10, (2 : ℚ)/10), some (2/10, 3/10),
      some (3/10, 2/10), some (3/10, 3/10)] :
        List (Option (ℚ × ℚ))).Nodup ∧
    MergeScanTies.densityPairs none (some e) st = some [none] ∧
    MergeScanTies.densityPairs (some s) none st = some [none] ∧
    (PyHeap.mutateTies PyHeap.tiesBase 0 (9/10) none).map
        (fun p => (PyHeap.readModelField p.1 p.2 0 "density",
                   PyHeap.readModelField p.1 p.2 1 "density",
                   PyHeap.readTopParam p.1 p.2 "lambda"))
      = some (some (1/2), some (1/2), some (9/10)) := by
  refine ⟨?_, ?_, ?_, ?_, ?_, ?_⟩
  · rw [show MergeScanTies.densityPairs (some s) (some e) st =
          (MergeScanTies.npArange s (e + st / 2) st).map
            (fun axis => axis.flatMap (fun d1 => axis.map
              (fun d2 => some (MergeScan.roundTo 2 d1,
                MergeScan.roundTo 2 d2)))) from rfl, h]
    simp only [SProd.sprod, List.product, List.flatMap_map,
      List.map_flatMap, List.map_map, Option.map_some]
    congr 1
  · with_unfolding_all decide
  · with_unfolding_all decide
  · rfl
  · rfl
  · with_unfolding_all decide

/-- Witness for C9 at density bounds `0.2`/`0.3`, step `0.1`, whose arange
axis is `[0.2, 0.3]`. -/
theorem C9_density_cross_product_witness :
    MergeScanTies.npArange (2/10) (3/10 + (1/10) / 2) (1/10) =
        some [2/10, 3/10] ∧
    MergeScanTies.densityPairs (some (2/10)) (some (3/10)) (1/10) =
        some ((([(2 : ℚ)/10, 3/10].map (MergeScan.roundTo 2)) ×ˢ
          ([(2 : ℚ)/10, 3/10].map (MergeScan.roundTo 2))).map
            (fun p => some p)) := by
  have ha : MergeScanTies.npArange (2/10) (3/10 + (1/10) / 2) (1/10) =
      some [2/10, 3/10] := by with_unfolding_all decide
  exact ⟨ha, (C9_density_cross_product (2/10) (3/10) (1/10) [2/10, 3/10]
    ha).1⟩

namespace SweepDriver

theorem tryBlock_mem (env : Env) (i : ℕ) :
    Ev.mergeCall i ∈ tryBlock env i ∧
    (env.mergeFails i = false → Ev.pushCall i ∈ tryBlock env i) ∧
    ((env.mergeFails i = true ∨ env.pushFails i = true) →
      Ev.logFail i ∈ tryBlock env i) := by
  cases hm : env.mergeFails i <;> cases hp : env.pushFails i <;>
    simp [tryBlock, hm, hp]

theorem iterEvs_no_crash {env : Env} {i : ℕ}
    (hno : (env.dirExists i && env.rmFails i) = false) :
    (iterEvs env i).2 = false ∧
    Ev.wrote i ∈ (iterEvs env i).1 ∧
    ∀ e ∈ tryBlock env i, e ∈ (iterEvs env i).1 := by
  cases hd : env.dirExists i
  · refine ⟨by simp [iterEvs, hd], by simp [iterEvs, hd], ?_⟩
    intro e he
    simp [iterEvs, hd]
    right
    exact he
  · have hr : env.rmFails i = false := by
      rw [hd] at hno
      simpa using hno
    refine ⟨by simp [iterEvs, hd, hr], by simp [iterEvs, hd, hr], ?_⟩
    intro e he
    simp [iterEvs, hd, hr]
    right
    right
    exact he

theorem runSweepFrom_mem (env : Env) (i : ℕ)
    (hrm : ∀ j, (env.dirExists j && env.rmFails j) = false) :
    ∀ k i0, i0 ≤ i → i < i0 + k →
      Ev.wrote i ∈ runSweepFrom env i0 k ∧
      ∀ e ∈ tryBlock env i, e ∈ runSweepFrom env i0 k := by
  intro k
  induction k with
  | zero => intro i0 h1 h2; omega
  | succ k ih =>
    intro i0 h1 h2
    have hcrash := iterEvs_no_crash (hrm i0)
    rcases hie : iterEvs env i0 with ⟨evs, crashed⟩
    rw [hie] at hcrash
    dsimp only at hcrash
    have hrun : runSweepFrom env i0 (k + 1) =
        evs ++ runSweepFrom env (i0 + 1) k := by
      show (match iterEvs env i0 with
        | (evs, crashed) =>
          if crashed = true then evs
          else evs ++ runSweepFrom env (i0 + 1) k) =
        evs ++ runSweepFrom env (i0 + 1) k
      rw [hie]
      simp [hcrash.1]
    by_cases hei : i = i0
    · subst hei
      rw [hrun]
      exact ⟨List.mem_append_left _ hcrash.2.1,
        fun e he => List.mem_append_left _ (hcrash.2.2 e he)⟩
    · have h1' : i0 + 1 ≤ i := by omega
      have h2' : i < i0 + 1 + k := by omega
      have := ih (i0 + 1) h1' h2'
      rw [hrun]
      exact ⟨List.mem_append_right _ this.1,
        fun e he => List.mem_append_right _ (this.2 e he)⟩

theorem runSweepFrom_crash (env : Env) (i : ℕ)
    (hd : env.dirExists i = true) (hr : env.rmFails i = true) :
    ∀ k i0, i0 ≤ i → ∀ e ∈ runSweepFrom env i0 k,
      e.idx ≤ i ∧ (e.idx = i → e = Ev.wrote i) := by
  intro k
  induction k with
  | zero => intro i0 _ e he; simp [runSweepFrom] at he
  | succ k ih =>
    intro i0 h1 e he
    by_cases hei : i0 = i
    · subst hei
      have hiter : iterEvs env i0 = ([Ev.wrote i0], true) := by
        unfold iterEvs
        rw [hd, hr]
        simp
      unfold runSweepFrom at he
      rw [hiter] at he
      simp at he
      subst he
      exact ⟨le_refl _, fun _ => rfl⟩
    · have hlt : i0 < i := lt_of_le_of_ne h1 hei
      unfold runSweepFrom at he
      have hidx := iterEvs_idx env i0
      rcases hie : iterEvs env i0 with ⟨evs, crashed⟩
      rw [hie] at he hidx
      dsimp only at he hidx
      cases crashed
      · simp only [Bool.false_eq_true, if_false] at he
        rcases List.mem_append.mp he with h | h
        · have := hidx e h
          exact ⟨by omega, fun hix => absurd (hix ▸ this) (by omega)⟩
        · exact ih (i0 + 1) (by omega) e h
      · simp only [if_true] at he
        have := hidx e he
        exact ⟨by omega, fun hix => absurd (hix ▸ this) (by omega)⟩

end SweepDriver

/-- C3: failure isolation of the sweep loop. As long as no stale-directory
removal raises, every combination of the sweep — whatever the pattern of
merge/upload failures at other combinations — gets its recipe written and
its merge invoked; its upload is invoked whenever its own merge succeeds;
and when its merge or upload fails, the failure is logged for that
combination and the loop continues. -/
theorem C3_failure_isolation (env : SweepDriver.Env) (n i : ℕ) (hi : i < n)
    (hrm : ∀ j, (env.dirExists j && env.rmFails j) = false) :
    SweepDriver.Ev.wrote i ∈ SweepDriver.runSweep env n ∧
    SweepDriver.Ev.mergeCall i ∈ SweepDriver.runSweep env n ∧
    (env.mergeFails i = false →
      SweepDriver.Ev.pushCall i ∈ SweepDriver.runSweep env n) ∧
    ((env.mergeFails i = true ∨ env.pushFails i = true) →
      SweepDriver.Ev.logFail i ∈ SweepDriver.runSweep env n) := by
  have hmem := SweepDriver.runSweepFrom_mem env i hrm n 0 (Nat.zero_le i)
    (by omega)
  have htb := SweepDriver.tryBlock_mem env i
  exact ⟨hmem.1, hmem.2 _ htb.1,
    fun hm => hmem.2 _ (htb.2.1 hm),
    fun hf => hmem.2 _ (htb.2.2 hf)⟩

/-- An environment where the output directory of combination 1 pre-exists
and its removal raises, the merge of combination 2 fails, and everything
else succeeds. -/
def sweepEnvC3 : SweepDriver.Env :=
  ⟨fun _ => false, fun _ => false, fun j => j == 1, fun _ => false⟩

/-- Witness for C3: three combinations, merge of combination 1 (0-based)
fails; combinations 0 and 2 still get merge and upload calls, and the
failure is logged for combination 1. -/
theorem C3_failure_isolation_witness :
    (2 < 3 ∧ ∀ j, (sweepEnvC3.dirExists j && sweepEnvC3.rmFails j) = false) ∧
    SweepDriver.Ev.mergeCall 2 ∈ SweepDriver.runSweep sweepEnvC3 3 ∧
    (sweepEnvC3.mergeFails 2 = false →
      SweepDriver.Ev.pushCall 2 ∈ SweepDriver.runSweep sweepEnvC3 3) := by
  have h := C3_failure_isolation sweepEnvC3 3 2 (by norm_num)
    (fun j => rfl)
  exact ⟨⟨by norm_num, fun j => rfl⟩, h.2.1, h.2.2.1⟩

/-- The environment of the C2 scenario: three combinations; combination 1's
output directory pre-exists and removing it raises; no tool failures. -/
def sweepEnvC2 : SweepDriver.Env :=
  ⟨fun j => j == 1, fun j => j == 1, fun _ => false, fun _ => false⟩

/-- C2 counterexample: the claim says a filesystem error removing the stale
output directory is fatal only for that iteration — the iteration is marked
failed and every later combination still runs. In the code `shutil.rmtree`
sits *before* the `try` block, so the exception propagates out of `main`:
with the rmtree failure at combination 1 of three, no failure is logged for
combination 1 and combination 2's merge is never invoked (combination 0,
before the failure, ran normally). -/
theorem C2_counterexample :
    SweepDriver.Ev.logFail 1 ∉ SweepDriver.runSweep sweepEnvC2 3 ∧
    SweepDriver.Ev.mergeCall 2 ∉ SweepDriver.runSweep sweepEnvC2 3 ∧
    SweepDriver.Ev.wrote 2 ∉ SweepDriver.runSweep sweepEnvC2 3 ∧
    SweepDriver.Ev.mergeCall 0 ∈ SweepDriver.runSweep sweepEnvC2 3 ∧
    SweepDriver.Ev.pushCall 0 ∈ SweepDriver.runSweep sweepEnvC2 3 := by
  refine ⟨?_, ?_, ?_, ?_, ?_⟩ <;> with_unfolding_all decide

/-- C2 amended: a filesystem error while removing a stale output directory
aborts the *entire* sweep, unlike an external tool failure: if removal
raises at combination `i`, then every event of the sweep belongs to a
combination index at most `i`, and the only event of combination `i`
itself is its recipe write — in particular there is no merge call and no
failure log for `i`, and no event at all for any later combination. -/
theorem C2_rmtree_error_aborts_sweep (env : SweepDriver.Env) (n i : ℕ)
    (hd : env.dirExists i = true) (hr : env.rmFails i = true) :
    ∀ e ∈ SweepDriver.runSweep env n,
      e.idx ≤ i ∧ (e.idx = i → e = SweepDriver.Ev.wrote i) := by
  exact SweepDriver.runSweepFrom_crash env i hd hr n 0 (Nat.zero_le i)

/-- Witness for C2 amended in the `sweepEnvC2` scenario: the crash is at
combination 1, and the event `wrote 1` of the actual trace satisfies the
conclusion. -/
theorem C2_rmtree_error_aborts_sweep_witness :
    (sweepEnvC2.dirExists 1 = true ∧ sweepEnvC2.rmFails 1 = true ∧
      SweepDriver.Ev.wrote 1 ∈ SweepDriver.runSweep sweepEnvC2 3) ∧
    ((SweepDriver.Ev.wrote 1).idx ≤ 1 ∧
      ((SweepDriver.Ev.wrote 1).idx = 1 →
        SweepDriver.Ev.wrote 1 = SweepDriver.Ev.wrote 1)) := by
  have hmem : SweepDriver.Ev.wrote 1 ∈ SweepDriver.runSweep sweepEnvC2 3 := by
    with_unfolding_all decide
  exact ⟨⟨rfl, rfl, hmem⟩,
    C2_rmtree_error_aborts_sweep sweepEnvC2 3 1 rfl rfl _ hmem⟩

/-- C6 counterexample: the claim says the derived output directory path
differs between any two distinct combinations for *both* sweeps, but the
TIES sweep passes `args.output_dir` itself to the merge tool for every
combination: the two distinct combinations `lambda = 1.0` and
`lambda = 1.1` (no density scan) get the identical output directory. -/
theorem C6_counterexample :
    ((1 : ℚ), (none : Option (ℚ × ℚ))) ≠ (11/10, none) ∧
    PathStr.tiesOutputDir "scratch/out".data 1 none =
      PathStr.tiesOutputDir "scratch/out".data (11/10) none := by
  constructor
  · intro hcontra
    have h1 : (1 : ℚ) = 11/10 := congrArg Prod.fst hcontra
    norm_num at h1
  · rfl

/-- C6 amended: within one sweep the derived temporary recipe file paths
never collide between distinct combinations — for the linear sweep, and
for the TIES sweep both without and with a density scan — and for the
linear sweep the derived per-combination output directories never collide
either; the TIES sweep however reuses the single configured output
directory for every combination (clearing it between iterations) instead
of deriving a per-combination one. All swept values lie on the 3-decimal
rounding grid, which is what the proof uses. -/
theorem C6_path_uniqueness (base : List Char) (w w' l l' d1 d2 d1' d2' : ℚ)
    (hw : MergeScan.isGrid3 w) (hw' : MergeScan.isGrid3 w')
    (hl : MergeScan.isGrid3 l) (hl' : MergeScan.isGrid3 l')
    (hd1 : MergeScan.isGrid3 d1) (hd1' : MergeScan.isGrid3 d1')
    (hd2 : MergeScan.isGrid3 d2) (hd2' : MergeScan.isGrid3 d2') :
    (w ≠ w' → PathStr.linearTempPath w ≠ PathStr.linearTempPath w' ∧
      PathStr.linearOutputDir base w ≠ PathStr.linearOutputDir base w') ∧
    (l ≠ l' → PathStr.tiesTempPath l none ≠ PathStr.tiesTempPath l' none) ∧
    ((l, d1, d2) ≠ (l', d1', d2') →
      PathStr.tiesTempPath l (some (d1, d2)) ≠
        PathStr.tiesTempPath l' (some (d1', d2'))) ∧
    (∀ dp dp' : Option (ℚ × ℚ),
      PathStr.tiesOutputDir base l dp = PathStr.tiesOutputDir base l' dp') := by
  refine ⟨?_, ?_, ?_, fun _ _ => rfl⟩
  · intro hne
    constructor
    · intro heq
      exact hne (PathStr.linearTempPath_inj hw hw' heq)
    · intro heq
      exact hne (PathStr.linearOutputDir_inj hw hw' heq)
  · intro hne heq
    exact hne (PathStr.tiesTempPath_inj_none hl hl' heq)
  · intro hne heq
    have h := PathStr.tiesTempPath_inj_some hl hl' hd1 hd1' hd2 hd2' heq
    apply hne
    rw [h.1, h.2.1, h.2.2]

/-- Witness for C6 amended at the combinations `w = 0.3` vs `w' = 0.5` and
`lambda 1, densities (0.2, 0.3)` vs `lambda 1, densities (0.2, 0.25)`. -/
theorem C6_path_uniqueness_witness :
    (MergeScan.isGrid3 (3/10) ∧ MergeScan.isGrid3 (1/2) ∧
      MergeScan.isGrid3 1 ∧ MergeScan.isGrid3 (2/10) ∧
      MergeScan.isGrid3 (3/10) ∧ MergeScan.isGrid3 (1/4)) ∧
    PathStr.linearTempPath (3/10) ≠ PathStr.linearTempPath (1/2) ∧
    PathStr.tiesTempPath 1 (some (2/10, 3/10)) ≠
      PathStr.tiesTempPath 1 (some (2/10, 1/4)) ∧
    PathStr.tiesOutputDir "o".data 1 (some (2/10, 3/10)) =
      PathStr.tiesOutputDir "o".data 1 (some (2/10, 1/4)) := by
  have h := C6_path_uniqueness "o".data (3/10) (1/2) 1 1 (2/10) (3/10)
    (2/10) (1/4) (by with_unfolding_all decide) (by with_unfolding_all decide)
    (by with_unfolding_all decide) (by with_unfolding_all decide)
    (by with_unfolding_all decide) (by with_unfolding_all decide)
    (by with_unfolding_all decide) (by with_unfolding_all decide)
  refine ⟨⟨by with_unfolding_all decide, by with_unfolding_all decide,
    by with_unfolding_all decide, by with_unfolding_all decide,
    by with_unfolding_all decide, by with_unfolding_all decide⟩,
    (h.1 (by norm_num)).1, h.2.2.1 ?_, h.2.2.2 (some (2/10, 3/10))
      (some (2/10, 1/4))⟩
  intro hcontra
  have h2 : ((2 : ℚ)/10, (3 : ℚ)/10) = (2/10, 1/4) := by
    have := congrArg Prod.snd hcontra
    simpa using this
  have h3 : (3 : ℚ)/10 = 1/4 := congrArg Prod.snd h2
  norm_num at h3

/-- C10 counterexample: the claim says the soup recipe lists the model
entries in *strictly* increasing step order for every non-empty matching
revision list. Both branch names `a-step-5` and `ba-step-5` match the
pattern for revision `a` (the regex is searched, not anchored at the
start), and both parse to step 5, so the recipe's entries are not in
strictly increasing step order. -/
theorem C10_counterexample :
    ModelSoup.get_model_revisions false ["a-step-5", "ba-step-5"] "a" =
      ["a-step-5", "ba-step-5"] ∧
    (ModelSoup.soupMain false ["a-step-5", "ba-step-5"] "a" "org/model"
        "bfloat16" "auto").map
      (fun r => r.models.map (fun m => ModelSoup.parseStepNum m.model)) =
      some [5, 5] ∧
    ¬ List.Chain' (· < ·) [5, 5] := by
  refine ⟨?_, ?_, ?_⟩
  · with_unfolding_all decide
  · with_unfolding_all decide
  · norm_num [List.chain'_cons, List.chain'_singleton]

/-- C10 amended: for every non-empty list of matching revisions the soup
recipe assigns every model entry the identical weight `1/n`, lists the
entries in the order of the sorted revision list — which is *non-decreasing*
(not necessarily strictly increasing) in the step number parsed from the
`step-<digits>` suffix — and sets `merge_method` to `linear`; and when the
matching list is empty (including when listing the revisions raised), the
program returns before building a recipe or invoking the merge and upload
tools. -/
theorem C10_soup_recipe (raised : Bool) (branches : List String)
    (rev model_id dtype chat : String) :
    (ModelSoup.get_model_revisions raised branches rev = [] →
      ModelSoup.soupMain raised branches rev model_id dtype chat = none) ∧
    (ModelSoup.get_model_revisions raised branches rev ≠ [] →
      ∃ recipe,
        ModelSoup.soupMain raised branches rev model_id dtype chat =
          some recipe ∧
        recipe.merge_method = "linear" ∧
        recipe.dtype = dtype ∧ recipe.chat_template = chat ∧
        (∀ m ∈ recipe.models, m.weight =
          1 / ((ModelSoup.get_model_revisions raised branches rev).length :
            ℚ)) ∧
        recipe.models.map (fun m => m.model) =
          (ModelSoup.get_model_revisions raised branches rev).map
            (fun v => model_id ++ "@" ++ v) ∧
        List.Pairwise ModelSoup.stepLE
          (ModelSoup.get_model_revisions raised branches rev)) := by
  constructor
  · intro h
    unfold ModelSoup.soupMain
    rw [if_pos (List.isEmpty_iff.mpr h)]
  · intro h
    refine ⟨ModelSoup.create_merge_recipe model_id
      (ModelSoup.get_model_revisions raised branches rev) dtype chat,
      ?_, rfl, rfl, rfl, ?_, ?_, ?_⟩
    · unfold ModelSoup.soupMain
      rw [if_neg (fun hc => h (List.isEmpty_iff.mp hc))]
    · intro m hm
      unfold ModelSoup.create_merge_recipe at hm
      simp only [List.mem_map] at hm
      obtain ⟨v, _, rfl⟩ := hm
      rfl
    · unfold ModelSoup.create_merge_recipe
      simp
    · cases raised
      · unfold ModelSoup.get_model_revisions
        simp only [Bool.false_eq_true, if_false]
        exact (List.sorted_insertionSort ModelSoup.stepLE _)
      · exact absurd rfl h

/-- Witness for C10 amended: branches `m-step-10`, `m-step-2` for revision
`m` sort numerically (not lexicographically) to steps 2, 10, and the
recipe carries weight `1/2` on both entries. -/
theorem C10_soup_recipe_witness :
    ModelSoup.get_model_revisions false ["m-step-10", "m-step-2"] "m" =
      ["m-step-2", "m-step-10"] ∧
    (ModelSoup.get_model_revisions false ["m-step-10", "m-step-2"] "m" ≠
      []) ∧
    ∃ recipe,
      ModelSoup.soupMain false ["m-step-10", "m-step-2"] "m" "org/m"
        "bfloat16" "auto" = some recipe ∧
      recipe.merge_method = "linear" ∧
      recipe.dtype = "bfloat16" ∧ recipe.chat_template = "auto" ∧
      (∀ m ∈ recipe.models, m.weight =
        1 / ((ModelSoup.get_model_revisions false ["m-step-10", "m-step-2"]
          "m").length : ℚ)) ∧
      recipe.models.map (fun m => m.model) =
        (ModelSoup.get_model_revisions false ["m-step-10", "m-step-2"]
          "m").map (fun v => "org/m" ++ "@" ++ v) ∧
      List.Pairwise ModelSoup.stepLE
        (ModelSoup.get_model_revisions false ["m-step-10", "m-step-2"]
          "m") := by
  have hne : ModelSoup.get_model_revisions false ["m-step-10", "m-step-2"]
      "m" ≠ [] := by with_unfolding_all decide
  exact ⟨by with_unfolding_all decide, hne,
    (C10_soup_recipe false ["m-step-10", "m-step-2"] "m" "org/m" "bfloat16"
      "auto").2 hne⟩

namespace MergeScanLinear

open MergeScan

/-- The ascending weight loop on the 3-decimal grid: starting the loop
body at `start + j * step`, it emits exactly the grid points
`start + j*step, ..., start + N*step`, where `N` is the largest multiple
index that stays within `end + 1e-6`. -/
theorem weightsAux_asc (start wend step : ℚ) (hs : isGrid3 start)
    (hst : isGrid3 step) (hpos : 0 < step) (hlt : start < wend) (N : ℕ)
    (hN1 : start + N * step ≤ wend + 1/1000000)
    (hN2 : wend + 1/1000000 < start + (N + 1) * step) :
    ∀ fuel j : ℕ, j ≤ N + 1 → N + 1 ≤ j + fuel →
      weightsAux start wend step fuel (start + j * step) =
        (List.range (N + 1 - j)).map (fun k => start + (j + k : ℕ) * step) := by
  intro fuel
  induction fuel with
  | zero =>
    intro j h1 h2
    have hj : j = N + 1 := by omega
    subst hj
    simp [weightsAux]
  | succ f ih =>
    intro j h1 h2
    by_cases hj : j = N + 1
    · subst hj
      have hguard : ¬ (if start ≤ wend then
          start + (N + 1 : ℕ) * step ≤ wend + 1/1000000
          else wend - 1/1000000 ≤ start + (N + 1 : ℕ) * step) := by
        rw [if_pos (le_of_lt hlt)]
        push_cast
        intro hcon
        nlinarith
      unfold weightsAux
      rw [if_neg hguard]
      simp
    · have hjN : j ≤ N := by omega
      have hjq : (j : ℚ) ≤ (N : ℚ) := by exact_mod_cast hjN
      have hguard : (if start ≤ wend then
          start + (j : ℕ) * step ≤ wend + 1/1000000
          else wend - 1/1000000 ≤ start + (j : ℕ) * step) := by
        rw [if_pos (le_of_lt hlt)]
        nlinarith
      have hgridj : isGrid3 (start + (j : ℕ) * step) :=
        isGrid3_add hs (isGrid3_natMul hst j)
      unfold weightsAux
      rw [if_pos hguard,
        if_neg (fun hc => (ne_of_lt hlt) (ratEq_iff.mp hc)),
        roundTo_eq_self_of_grid3 hgridj]
      have hstep : weightStep start wend step (start + (j : ℕ) * step) =
          start + ((j + 1 : ℕ) : ℚ) * step := by
        unfold weightStep
        rw [if_pos hlt]
        have harith : start + (j : ℕ) * step + step =
            start + ((j + 1 : ℕ) : ℚ) * step := by
          push_cast
          ring
        rw [harith, roundTo_eq_self_of_grid3
          (isGrid3_add hs (isGrid3_natMul hst (j + 1)))]
      rw [hstep, ih (j + 1) (by omega) (by omega)]
      rw [show N + 1 - j = (N - j) + 1 from by omega,
        List.range_succ_eq_map,
        show N + 1 - (j + 1) = N - j from by omega]
      simp only [List.map_cons, List.map_map]
      refine List.cons_eq_cons.mpr ⟨?_, ?_⟩
      · push_cast
        ring
      · refine List.map_congr_left ?_
        intro k _
        simp only [Function.comp_apply]
        push_cast
        ring

end MergeScanLinear

/-- C4 counterexample: for `weight-start = 0.0006`, `weight-end = 0.01`,
`step-size = 0.0006` (start ≤ end, positive step), the generated list
starts with `round(0.0006, 3) = 0.001`, not with `weight_start`; and its
element at index 3 is `0.003` — the cumulative rounding drifts — while the
claim predicts `round(0.0006 + 3*0.0006, 3) = 0.002`. -/
theorem C4_counterexample :
    (MergeScanLinear.pyWeights 20 (6/10000) (1/100) (6/10000))[0]? =
      some (1/1000) ∧
    ((1 : ℚ)/1000 ≠ 6/10000) ∧
    (MergeScanLinear.pyWeights 20 (6/10000) (1/100) (6/10000))[3]? =
      some (3/1000) ∧
    MergeScan.roundTo 3 (6/10000 + 3 * (6/10000)) = 2/1000 ∧
    ((3 : ℚ)/1000 ≠ 2/1000) := by
  refine ⟨?_, ?_, ?_, ?_, ?_⟩ <;> with_unfolding_all decide

/-- C4 amended: for weight-start and step-size on the 3-decimal grid (so
that the per-iteration `round(current + step, 3)` is exact), a positive
step and start ≤ end, the generated list is exactly
`[start + k*step for k = 0..N]` where `N` is the largest index with
`start + N*step ≤ end + 1e-6`: it starts at `start`, its k-th element is
`round(start + k*step, 3) = start + k*step`, and it ends at the largest
reachable value within the `1e-6` tolerance of `end`. -/
theorem C4_ascending_weights (start wend step : ℚ) (N fuel : ℕ)
    (hs : MergeScan.isGrid3 start) (hst : MergeScan.isGrid3 step)
    (hpos : 0 < step) (hle : start ≤ wend)
    (hN1 : start + N * step ≤ wend + 1/1000000)
    (hN2 : wend + 1/1000000 < start + (N + 1) * step)
    (hfuel : N + 1 ≤ fuel) :
    MergeScanLinear.pyWeights fuel start wend step =
      (List.range (N + 1)).map (fun k : ℕ => start + (k : ℚ) * step) ∧
    ∀ k : ℕ, MergeScan.roundTo 3 (start + (k : ℚ) * step) =
      start + (k : ℚ) * step := by
  constructor
  · rcases eq_or_lt_of_le hle with heq | hlt
    · subst heq
      have hstepmin := MergeScan.grid3_pos_ge hst hpos
      have hN0 : N = 0 := by
        by_contra hN
        have hge1 : (1 : ℚ) ≤ (N : ℚ) := by
          exact_mod_cast Nat.one_le_iff_ne_zero.mpr hN
        nlinarith
      subst hN0
      rw [MergeScanLinear.pyWeights_start_eq_end start step fuel
        (by omega)]
      rw [MergeScan.roundTo_eq_self_of_grid3 hs]
      simp [List.range_succ]
    · have hmain := MergeScanLinear.weightsAux_asc start wend step hs hst
        hpos hlt N hN1 hN2 fuel 0 (by omega) (by omega)
      have h0 : start + ((0 : ℕ) : ℚ) * step = start := by
        push_cast
        ring
      rw [h0] at hmain
      unfold MergeScanLinear.pyWeights
      rw [hmain]
      simp
  · intro k
    exact MergeScan.roundTo_eq_self_of_grid3
      (MergeScan.isGrid3_add hs (MergeScan.isGrid3_natMul hst k))

/-- Witness for C4 amended at `start = 0.3`, `end = 0.7`, `step = 0.2`,
`N = 2`: the generated list is `[0.3, 0.5, 0.7]`. -/
theorem C4_ascending_weights_witness :
    (MergeScan.isGrid3 (3/10) ∧ MergeScan.isGrid3 (1/5) ∧
      (0 : ℚ) < 1/5 ∧ (3/10 : ℚ) ≤ 7/10 ∧
      (3/10 : ℚ) + 2 * (1/5) ≤ 7/10 + 1/1000000 ∧
      (7/10 : ℚ) + 1/1000000 < 3/10 + (2 + 1) * (1/5)) ∧
    MergeScanLinear.pyWeights 3 (3/10) (7/10) (1/5) =
      (List.range 3).map (fun k : ℕ => 3/10 + (k : ℚ) * (1/5)) ∧
    MergeScanLinear.pyWeights 3 (3/10) (7/10) (1/5) =
      [3/10, 1/2, 7/10] := by
  have h := C4_ascending_weights (3/10) (7/10) (1/5) 2 3
    (by with_unfolding_all decide) (by with_unfolding_all decide)
    (by norm_num) (by norm_num) (by norm_num) (by norm_num) (by norm_num)
  refine ⟨⟨by with_unfolding_all decide, by with_unfolding_all decide,
    by norm_num, by norm_num, by norm_num, by norm_num⟩, ?_, ?_⟩
  · have h2 := h.1
    norm_num at h2 ⊢
    exact h2
  · with_unfolding_all decide

namespace MergeScanLinear

open MergeScan

/-- The descending weight loop on the 3-decimal grid: starting the loop
body at `start - j * step`, it emits exactly the grid points
`start - j*step, ..., start - N*step`, where `N` is the largest multiple
index that stays within `end - 1e-6`. -/
theorem weightsAux_desc (start wend step : ℚ) (hs : isGrid3 start)
    (hst : isGrid3 step) (hpos : 0 < step) (hgt : wend < start) (N : ℕ)
    (hN1 : wend - 1/1000000 ≤ start - N * step)
    (hN2 : start - (N + 1) * step < wend - 1/1000000) :
    ∀ fuel j : ℕ, j ≤ N + 1 → N + 1 ≤ j + fuel →
      weightsAux start wend step fuel (start - j * step) =
        (List.range (N + 1 - j)).map (fun k => start - (j + k : ℕ) * step) := by
  intro fuel
  induction fuel with
  | zero =>
    intro j h1 h2
    have hj : j = N + 1 := by omega
    subst hj
    simp [weightsAux]
  | succ f ih =>
    intro j h1 h2
    have hnle : ¬ start ≤ wend := not_le.mpr hgt
    by_cases hj : j = N + 1
    · subst hj
      have hguard : ¬ (if start ≤ wend then
          start - (N + 1 : ℕ) * step ≤ wend + 1/1000000
          else wend - 1/1000000 ≤ start - (N + 1 : ℕ) * step) := by
        rw [if_neg hnle]
        push_cast
        intro hcon
        nlinarith
      unfold weightsAux
      rw [if_neg hguard]
      simp
    · have hjN : j ≤ N := by omega
      have hjq : (j : ℚ) ≤ (N : ℚ) := by exact_mod_cast hjN
      have hguard : (if start ≤ wend then
          start - (j : ℕ) * step ≤ wend + 1/1000000
          else wend - 1/1000000 ≤ start - (j : ℕ) * step) := by
        rw [if_neg hnle]
        nlinarith
      have hgridj : isGrid3 (start - (j : ℕ) * step) :=
        isGrid3_sub hs (isGrid3_natMul hst j)
      unfold weightsAux
      rw [if_pos hguard,
        if_neg (fun hc => (ne_of_gt hgt) (ratEq_iff.mp hc)),
        roundTo_eq_self_of_grid3 hgridj]
      have hstep : weightStep start wend step (start - (j : ℕ) * step) =
          start - ((j + 1 : ℕ) : ℚ) * step := by
        unfold weightStep
        rw [if_neg (fun hc => hnle (le_of_lt hc))]
        have harith : start - (j : ℕ) * step - step =
            start - ((j + 1 : ℕ) : ℚ) * step := by
          push_cast
          ring
        rw [harith, roundTo_eq_self_of_grid3
          (isGrid3_sub hs (isGrid3_natMul hst (j + 1)))]
      rw [hstep, ih (j + 1) (by omega) (by omega)]
      rw [show N + 1 - j = (N - j) + 1 from by omega,
        List.range_succ_eq_map,
        show N + 1 - (j + 1) = N - j from by omega]
      simp only [List.map_cons, List.map_map]
      refine List.cons_eq_cons.mpr ⟨?_, ?_⟩
      · push_cast
        ring
      · refine List.map_congr_left ?_
        intro k _
        simp only [Function.comp_apply]
        push_cast
        ring

end MergeScanLinear

/-- C7 counterexample: for `weight-start = 0.0106`, `weight-end = 0`,
`step-size = 0.0006` (start > end, positive step), the first element is
`round(0.0106, 3) = 0.011`, not `weight_start`; and the element at index 3
is `0.008` — cumulative rounding drifts — while the symmetric claim
predicts `round(0.0106 - 3*0.0006, 3) = 0.009`. -/
theorem C7_counterexample :
    (MergeScanLinear.pyWeights 20 (106/10000) 0 (6/10000))[0]? =
      some (11/1000) ∧
    ((11 : ℚ)/1000 ≠ 106/10000) ∧
    (MergeScanLinear.pyWeights 20 (106/10000) 0 (6/10000))[3]? =
      some (8/1000) ∧
    MergeScan.roundTo 3 (106/10000 - 3 * (6/10000)) = 9/1000 ∧
    ((8 : ℚ)/1000 ≠ 9/1000) := by
  refine ⟨?_, ?_, ?_, ?_, ?_⟩ <;> with_unfolding_all decide

/-- C7 amended: for weight-start and step-size on the 3-decimal grid (so
that the per-iteration `round(current - step, 3)` is exact), a positive
step and start > end, the generator produces the descending sweep
`[start - k*step for k = 0..N]` where `N` is the largest index with
`start - N*step ≥ end - 1e-6`: it starts at `start`, its k-th element is
`round(start - k*step, 3) = start - k*step`, and it terminates at the
smallest reachable value within the `1e-6` tolerance of `end`. -/
theorem C7_descending_weights (start wend step : ℚ) (N fuel : ℕ)
    (hs : MergeScan.isGrid3 start) (hst : MergeScan.isGrid3 step)
    (hpos : 0 < step) (hgt : wend < start)
    (hN1 : wend - 1/1000000 ≤ start - N * step)
    (hN2 : start - (N + 1) * step < wend - 1/1000000)
    (hfuel : N + 1 ≤ fuel) :
    MergeScanLinear.pyWeights fuel start wend step =
      (List.range (N + 1)).map (fun k : ℕ => start - (k : ℚ) * step) ∧
    ∀ k : ℕ, MergeScan.roundTo 3 (start - (k : ℚ) * step) =
      start - (k : ℚ) * step := by
  constructor
  · have hmain := MergeScanLinear.weightsAux_desc start wend step hs hst
      hpos hgt N hN1 hN2 fuel 0 (by omega) (by omega)
    have h0 : start - ((0 : ℕ) : ℚ) * step = start := by
      push_cast
      ring
    rw [h0] at hmain
    unfold MergeScanLinear.pyWeights
    rw [hmain]
    simp
  · intro k
    exact MergeScan.roundTo_eq_self_of_grid3
      (MergeScan.isGrid3_sub hs (MergeScan.isGrid3_natMul hst k))

/-- Witness for C7 amended at `start = 0.7`, `end = 0.3`, `step = 0.2`,
`N = 2`: the generated list is `[0.7, 0.5, 0.3]`. -/
theorem C7_descending_weights_witness :
    (MergeScan.isGrid3 (7/10) ∧ MergeScan.isGrid3 (1/5) ∧
      (0 : ℚ) < 1/5 ∧ (3/10 : ℚ) < 7/10 ∧
      (3/10 : ℚ) - 1/1000000 ≤ 7/10 - 2 * (1/5) ∧
      (7/10 : ℚ) - (2 + 1) * (1/5) < 3/10 - 1/1000000) ∧
    MergeScanLinear.pyWeights 3 (7/10) (3/10) (1/5) =
      (List.range 3).map (fun k : ℕ => 7/10 - (k : ℚ) * (1/5)) ∧
    MergeScanLinear.pyWeights 3 (7/10) (3/10) (1/5) =
      [7/10, 1/2, 3/10] := by
  have h := C7_descending_weights (7/10) (3/10) (1/5) 2 3
    (by with_unfolding_all decide) (by with_unfolding_all decide)
    (by norm_num) (by norm_num) (by norm_num) (by norm_num) (by norm_num)
  refine ⟨⟨by with_unfolding_all decide, by with_unfolding_all decide,
    by norm_num, by norm_num, by norm_num, by norm_num⟩, ?_, ?_⟩
  · have h2 := h.1
    norm_num at h2 ⊢
    exact h2
  · with_unfolding_all decide
